import Mathlib

/-!
Shallow embedding of the Noveily persistence layer (`utils/db.ts`) and of the
AI cover-search routine (`searchComicCovers` in `services/geminiService.ts`),
together with theorems settling the specification claims about them.

Binary blobs are modelled by their opaque content (a `String`); JS strings are
Lean `String`s, with the JS string methods (`toLowerCase`, `toUpperCase`,
`trim`, `includes`) re-implemented over the character list so that they are
evaluable by the kernel.  The IndexedDB database is a pair of object stores
(`comics`, `pages`), each modelled as a list of records; `put` replaces the
record with the same key or appends, `delete` removes by key, and an index
`getAll` is a filter.
-/

/-- Blob content, opaque to the persistence layer. -/
abbrev Blob := String

/-- `interface Comic` of `types.ts`: `lastReadPage?: number` is optional. -/
structure Comic where
  id : String
  title : String
  coverImageBlob : Option Blob
  createdAt : Nat
  totalPages : Nat
  lastReadPage : Option Nat
deriving Repr, DecidableEq

/-- A record of the `pages` object store: `{ id, comicId, blob, order }`. -/
structure PageRec where
  id : String
  comicId : String
  blob : Blob
  order : Nat
deriving Repr, DecidableEq

/-- `interface ComicPage` of `types.ts`: the projection returned by `getComicPages`. -/
structure ComicPage where
  id : String
  blob : Blob
  order : Nat
deriving Repr, DecidableEq

/-- State of the `Noveily_DB` database: the two object stores. -/
structure DBState where
  comics : List Comic
  pages : List PageRec
deriving Repr, DecidableEq

/-- IndexedDB `put` on the `pages` store: replace the record whose key
equals `q.id`, or add the record if no such key exists. -/
def putPage (q : PageRec) (store : List PageRec) : List PageRec :=
  if store.any (fun p => p.id == q.id) then
    store.map (fun p => if p.id == q.id then q else p)
  else store ++ [q]

/-- IndexedDB `put` on the `comics` store. -/
def putComic (c : Comic) (store : List Comic) : List Comic :=
  if store.any (fun x => x.id == c.id) then
    store.map (fun x => if x.id == c.id then c else x)
  else store ++ [c]

/-- `getAllComics`: `store.getAll()` then
`sort((a, b) => b.createdAt - a.createdAt)` (descending `createdAt`). -/
def getAllComics (s : DBState) : List Comic :=
  s.comics.mergeSort (fun a b => decide (b.createdAt ≤ a.createdAt))

/-- `getComicPages`: `index('comicId').getAll(comicId)`, then
`sort((a, b) => a.order - b.order)`, then the projection
`p => ({ id: p.id, blob: p.blob, order: p.order })`. -/
def getComicPages (comicId : String) (s : DBState) : List ComicPage :=
  ((s.pages.filter (fun p => p.comicId == comicId)).mergeSort
      (fun a b => decide (a.order ≤ b.order))).map
    (fun p => ⟨p.id, p.blob, p.order⟩)

/-- `updateComicProgress`: fetch the comic; if present set `lastReadPage` and
put it back; if absent log and resolve.  The second component is the outcome
of the returned promise. -/
def updateComicProgress (comicId : String) (pageIndex : Nat) (s : DBState) :
    DBState × Except String Unit :=
  match s.comics.find? (fun c => c.id == comicId) with
  | some c =>
      ({ s with comics := putComic { c with lastReadPage := some pageIndex } s.comics },
       Except.ok ())
  | none => (s, Except.ok ())

/-- `updateComicCover`: fetch the comic; if present set `coverImageBlob` and
put it back; if absent reject with `Comic not found`. -/
def updateComicCover (comicId : String) (coverBlob : Blob) (s : DBState) :
    DBState × Except String Unit :=
  match s.comics.find? (fun c => c.id == comicId) with
  | some c =>
      ({ s with comics := putComic { c with coverImageBlob := some coverBlob } s.comics },
       Except.ok ())
  | none => (s, Except.error "Comic not found")

/-- `updateComicTitle`: fetch the comic; if present set `title` and put it
back; if absent reject with `Comic not found for title update`. -/
def updateComicTitle (comicId : String) (newTitle : String) (s : DBState) :
    DBState × Except String Unit :=
  match s.comics.find? (fun c => c.id == comicId) with
  | some c =>
      ({ s with comics := putComic { c with title := newTitle } s.comics },
       Except.ok ())
  | none => (s, Except.error "Comic not found for title update")

/-- The cursor loop of `deleteComic` over `index('comicId')`: every page
record whose `comicId` matches is deleted, one cursor step at a time. -/
def cursorDeletePages (comicId : String) : List PageRec → List PageRec
  | [] => []
  | p :: ps =>
      if p.comicId == comicId then cursorDeletePages comicId ps
      else p :: cursorDeletePages comicId ps

/-- `deleteComic`: `comicStore.delete(comicId)` plus the cursor loop deleting
every page with that `comicId`. -/
def deleteComic (comicId : String) (s : DBState) : DBState :=
  { comics := s.comics.filter (fun c => !(c.id == comicId)),
    pages := cursorDeletePages comicId s.pages }

/-- The `pages` store right after `pageStore.delete(pageId)` inside
`deleteComicPage`. -/
def pagesAfterDelete (pageId : String) (s : DBState) : List PageRec :=
  s.pages.filter (fun p => !(p.id == pageId))

/-- `pageIndex.getAll(comicId)` inside `deleteComicPage`: the sibling pages
that remain after the deletion. -/
def remainingPages (pageId comicId : String) (s : DBState) : List PageRec :=
  (pagesAfterDelete pageId s).filter (fun p => p.comicId == comicId)

/-- The `remainingPages.forEach((page, index) => ...)` loop of
`deleteComicPage`: walk the sorted remaining pages with a running index and,
whenever `page.order !== index`, put the page back with `order := index`. -/
def resequence (i : Nat) (rem : List PageRec) (store : List PageRec) : List PageRec :=
  match rem with
  | [] => store
  | p :: ps =>
      if p.order ≠ i then resequence (i + 1) ps (putPage { p with order := i } store)
      else resequence (i + 1) ps store

/-- The comic update at the end of `deleteComicPage`:
`comic.totalPages = remainingPages.length`, and
`if (comic.lastReadPage >= comic.totalPages) comic.lastReadPage =
Math.max(0, comic.totalPages - 1)` (an absent `lastReadPage` compares false
and stays absent). -/
def clampComic (n : Nat) (c : Comic) : Comic :=
  let c1 := { c with totalPages := n }
  match c1.lastReadPage with
  | some k =>
      if c1.totalPages ≤ k then { c1 with lastReadPage := some (c1.totalPages - 1) }
      else c1
  | none => c1

/-- `deleteComicPage`: delete the page; if no sibling pages remain delete the
parent comic; otherwise re-sequence the remaining pages sorted by `order` and
update the parent comic's `totalPages` and (clamped) `lastReadPage`. -/
def deleteComicPage (pageId comicId : String) (s : DBState) : DBState :=
  let pages1 := pagesAfterDelete pageId s
  let remaining := remainingPages pageId comicId s
  if remaining.isEmpty then
    { comics := s.comics.filter (fun c => !(c.id == comicId)), pages := pages1 }
  else
    let sorted := remaining.mergeSort (fun a b => decide (a.order ≤ b.order))
    let pages2 := resequence 0 sorted pages1
    let comics2 :=
      match s.comics.find? (fun c => c.id == comicId) with
      | some c => putComic (clampComic remaining.length c) s.comics
      | none => s.comics
    { comics := comics2, pages := pages2 }

/-- Order field of the page with the given id, as stored in the database. -/
def pageOrderInDB (s : DBState) (pid : String) : Option Nat :=
  (s.pages.find? (fun p => p.id == pid)).map (fun p => p.order)

/-- Index (offset by `i`) at which the page with id `pid` sits in `rem`:
the running index the `forEach` of `deleteComicPage` would hand that page. -/
def orderAt (i : Nat) (rem : List PageRec) (pid : String) : Option Nat :=
  match rem with
  | [] => none
  | p :: ps => if p.id = pid then some i else orderAt (i + 1) ps pid

/-- Net effect of the re-sequencing loop on one stored record: set its
`order` to its running index in `rem` when it occurs there. -/
def applyOrderFrom (i : Nat) (rem : List PageRec) (q : PageRec) : PageRec :=
  match orderAt i rem q.id with
  | some j => { q with order := j }
  | none => q

/-! ### JS string operations, evaluable over the character list -/

/-- JS `String.prototype.toLowerCase`, characterwise. -/
def jsToLower (s : String) : String := ⟨s.data.map Char.toLower⟩

/-- JS `String.prototype.toUpperCase`, characterwise. -/
def jsToUpper (s : String) : String := ⟨s.data.map Char.toUpper⟩

/-- JS `String.prototype.trim`: strip whitespace from both ends. -/
def jsTrim (s : String) : String :=
  ⟨((s.data.dropWhile Char.isWhitespace).reverse.dropWhile Char.isWhitespace).reverse⟩

/-- Substring test on character lists: `pat` occurs contiguously in `s`. -/
def containsSub (s pat : List Char) : Bool :=
  match s with
  | [] => pat.isEmpty
  | _ :: t => pat.isPrefixOf s || containsSub t pat

/-- JS `String.prototype.includes`. -/
def jsIncludes (s pat : String) : Bool := containsSub s.data pat.data

/-! ### `searchComicCovers` (`services/geminiService.ts`)

The hosted model is abstracted as an oracle `Comic → Option String`: `some t`
is the text of the model's answer for that comic's cover, `none` covers a
thrown request error or a missing `response.text` (both make the comic's
mapper return `null`). -/

/-- The title pre-filter predicate:
`comic.title.toLowerCase().includes(query.toLowerCase())`. -/
def titleMatchPred (query : String) (c : Comic) : Bool :=
  jsIncludes (jsToLower c.title) (jsToLower query)

/-- `titleMatches = comics.filter(...)` of `searchComicCovers`. -/
def titleMatchesOf (comics : List Comic) (query : String) : List Comic :=
  comics.filter (titleMatchPred query)

/-- `comicsToSearchAi = comics.filter(comic => !titleMatchIds.has(comic.id))`. -/
def comicsToSearchAi (comics : List Comic) (query : String) : List Comic :=
  comics.filter (fun c => !(((titleMatchesOf comics query).map (fun x => x.id)).contains c.id))

/-- Per-comic body of the AI fan-out: a request is answered `YES` when the
comic has a cover and the oracle's text, trimmed and upper-cased, is `YES`. -/
def aiYes (oracle : Comic → Option String) (c : Comic) : Bool :=
  match c.coverImageBlob with
  | some _ =>
      match oracle c with
      | some t => jsToUpper (jsTrim t) == "YES"
      | none => false
  | none => false

/-- The comics for which an inference request is actually issued: those sent
to the AI fan-out that have a cover blob. -/
def aiConsulted (comics : List Comic) (query : String) : List Comic :=
  (comicsToSearchAi comics query).filter (fun c => c.coverImageBlob.isSome)

/-- `searchComicCovers`: title matches first, then the comics of the AI
fan-out whose request came back `YES`, in library order. -/
def searchComicCovers (oracle : Comic → Option String) (comics : List Comic)
    (query : String) : List Comic :=
  titleMatchesOf comics query ++ (comicsToSearchAi comics query).filter (aiYes oracle)

/-! ### Database schema (`openDB`) and per-operation transaction scopes -/

/-- A secondary index declared by `createIndex`. -/
structure IndexDef where
  name : String
  keyPath : String
  unique : Bool
deriving Repr, DecidableEq

/-- An object store declared by `createObjectStore`. -/
structure StoreDef where
  name : String
  keyPath : String
  indexes : List IndexDef
deriving Repr, DecidableEq

/-- The `onupgradeneeded` handler of `openDB`: create the `comics` store
(key `id`) and the `pages` store (key `id`, non-unique index `comicId`)
when absent. -/
def onUpgradeNeeded (db : List StoreDef) : List StoreDef :=
  let db1 := if db.any (fun st => st.name == "comics") then db
             else db ++ [⟨"comics", "id", []⟩]
  if db1.any (fun st => st.name == "pages") then db1
  else db1 ++ [⟨"pages", "id", [⟨"comicId", "comicId", false⟩]⟩]

/-- The object stores named by each `db.transaction(...)` call of
`utils/db.ts`, one entry per exported operation. -/
def transactionScopes : List (String × List String) :=
  [("saveComic", ["comics", "pages"]),
   ("getAllComics", ["comics"]),
   ("getComicPages", ["pages"]),
   ("updateComicProgress", ["comics"]),
   ("updateComicCover", ["comics"]),
   ("deleteComic", ["comics", "pages"]),
   ("deleteComicPage", ["pages", "comics"]),
   ("updateComicTitle", ["comics"])]

/-! ### Concrete fixtures used to instantiate the theorems -/

/-- A database with one comic of three pages, read up to page 2. -/
def dbThree : DBState :=
  { comics := [⟨"c1", "T", none, 5, 3, some 2⟩],
    pages := [⟨"p1", "c1", "b1", 0⟩, ⟨"p2", "c1", "b2", 1⟩, ⟨"p3", "c1", "b3", 2⟩] }

/-- A database with one comic of a single page. -/
def dbOne : DBState :=
  { comics := [⟨"c1", "T", none, 5, 1, some 0⟩],
    pages := [⟨"p1", "c1", "b1", 0⟩] }

/-- The empty database. -/
def dbEmpty : DBState := { comics := [], pages := [] }

/-- A two-comic library: `Alpha` (no cover) and `Beta` (with a cover). -/
def comicAlpha : Comic := ⟨"c1", "Alpha", none, 5, 1, none⟩

/-- The second comic of the fixture library. -/
def comicBeta : Comic := ⟨"c2", "Beta", some "cover", 4, 1, none⟩

/-- An oracle that answers ` yes ` for `Beta` and nothing otherwise. -/
def oracleYesBeta (c : Comic) : Option String :=
  if c.id == "c2" then some " yes " else none

/-! ### Helper lemmas -/

theorem pageLe_trans (a b c : PageRec) :
    decide (a.order ≤ b.order) = true → decide (b.order ≤ c.order) = true →
    decide (a.order ≤ c.order) = true := by
  simp only [decide_eq_true_eq]
  exact Nat.le_trans

theorem pageLe_total (a b : PageRec) :
    (decide (a.order ≤ b.order) || decide (b.order ≤ a.order)) = true := by
  simp only [Bool.or_eq_true, decide_eq_true_eq]
  exact Nat.le_total a.order b.order

theorem comicLe_trans (a b c : Comic) :
    decide (b.createdAt ≤ a.createdAt) = true → decide (c.createdAt ≤ b.createdAt) = true →
    decide (c.createdAt ≤ a.createdAt) = true := by
  simp only [decide_eq_true_eq]
  intro h1 h2
  exact Nat.le_trans h2 h1

theorem comicLe_total (a b : Comic) :
    (decide (b.createdAt ≤ a.createdAt) || decide (a.createdAt ≤ b.createdAt)) = true := by
  simp only [Bool.or_eq_true, decide_eq_true_eq]
  exact Nat.le_total b.createdAt a.createdAt

theorem mem_cursorDeletePages (comicId : String) (l : List PageRec) (p : PageRec) :
    p ∈ cursorDeletePages comicId l ↔ p ∈ l ∧ p.comicId ≠ comicId := by
  induction l with
  | nil => simp [cursorDeletePages]
  | cons a t ih =>
      by_cases h : a.comicId = comicId
      · have hb : (a.comicId == comicId) = true := by simpa using h
        simp only [cursorDeletePages, hb, if_true, ih, List.mem_cons]
        constructor
        · rintro ⟨hp, hne⟩
          exact ⟨Or.inr hp, hne⟩
        · rintro ⟨hp | hp, hne⟩
          · exact absurd (hp ▸ h) hne
          · exact ⟨hp, hne⟩
      · have hb : (a.comicId == comicId) = false := by simpa using h
        simp only [cursorDeletePages, hb, Bool.false_eq_true, if_false, List.mem_cons, ih]
        constructor
        · rintro (rfl | ⟨hp, hne⟩)
          · exact ⟨Or.inl rfl, h⟩
          · exact ⟨Or.inr hp, hne⟩
        · rintro ⟨rfl | hp, hne⟩
          · exact Or.inl rfl
          · exact Or.inr ⟨hp, hne⟩

/-! ### Claims C9, C10, C6, C4 -/

/-- C9: the upgrade handler run on a fresh database creates exactly the two
object stores `comics` and `pages`, both keyed by `id`, with a single
non-unique secondary index `comicId` on `pages`; and every exported
persistence operation opens its transaction on a subset of those two
stores. -/
theorem upgrade_schema_two_stores_one_index :
    onUpgradeNeeded [] =
      [⟨"comics", "id", []⟩, ⟨"pages", "id", [⟨"comicId", "comicId", false⟩]⟩] ∧
    ∀ op ∈ transactionScopes, ∀ n ∈ op.2, n = "comics" ∨ n = "pages" := by
  constructor
  · rfl
  · decide

/-- C10: `getAllComics` returns a permutation of the `comics` store sorted by
`createdAt` in descending order. -/
theorem getAllComics_sorted_desc (s : DBState) :
    (getAllComics s).Perm s.comics ∧
    (getAllComics s).Pairwise (fun a b => b.createdAt ≤ a.createdAt) := by
  constructor
  · exact List.mergeSort_perm s.comics _
  · have h := @List.sorted_mergeSort Comic
      (fun a b => decide (b.createdAt ≤ a.createdAt)) comicLe_trans comicLe_total s.comics
    exact h.imp (by simp)

/-- C6: `getComicPages` returns exactly the pages whose `comicId` equals the
argument, projected to `{ id, blob, order }`, in ascending `order`. -/
theorem getComicPages_filter_sorted_projected (comicId : String) (s : DBState) :
    (getComicPages comicId s).Perm
      ((s.pages.filter (fun p => p.comicId == comicId)).map
        (fun p => ({ id := p.id, blob := p.blob, order := p.order } : ComicPage))) ∧
    (getComicPages comicId s).Pairwise (fun a b => a.order ≤ b.order) := by
  constructor
  · exact (List.mergeSort_perm _ _).map _
  · have h := @List.sorted_mergeSort PageRec
      (fun a b => decide (a.order ≤ b.order)) pageLe_trans pageLe_total
      (s.pages.filter (fun p => p.comicId == comicId))
    exact List.Pairwise.map _ (by simp) h

/-- C4: `deleteComic` removes the comic with the given id together with every
page whose `comicId` equals it, and keeps every other comic and page. -/
theorem deleteComic_cascades_and_frames (comicId : String) (s : DBState) :
    (∀ c, c ∈ (deleteComic comicId s).comics ↔ c ∈ s.comics ∧ c.id ≠ comicId) ∧
    (∀ p, p ∈ (deleteComic comicId s).pages ↔ p ∈ s.pages ∧ p.comicId ≠ comicId) := by
  constructor
  · intro c
    simp [deleteComic, List.mem_filter]
  · intro p
    simpa [deleteComic] using mem_cursorDeletePages comicId s.pages p

/-! ### Claims C2, C7, C5 -/

/-- C2: when `deleteComicPage` removes the last remaining page of a comic,
the parent comic record is deleted from the `comics` store. -/
theorem deleteComicPage_deletes_empty_parent (pid cid : String) (s : DBState)
    (he : remainingPages pid cid s = []) :
    ∀ c ∈ (deleteComicPage pid cid s).comics, c.id ≠ cid := by
  intro c hc
  simp only [deleteComicPage, he, List.isEmpty_nil, if_true] at hc
  simp only [List.mem_filter, Bool.not_eq_eq_eq_not, Bool.not_true, beq_eq_false_iff_ne,
    ne_eq] at hc
  exact hc.2

/-- C2 witness: deleting the only page of `dbOne` leaves no page and removes
the comic `c1`. -/
theorem deleteComicPage_deletes_empty_parent_witness :
    remainingPages "p1" "c1" dbOne = [] ∧
    ∀ c ∈ (deleteComicPage "p1" "c1" dbOne).comics, c.id ≠ "c1" :=
  ⟨by decide, deleteComicPage_deletes_empty_parent "p1" "c1" dbOne (by decide)⟩

/-- C7: with no comic record for the id, `updateComicProgress` resolves and
leaves the store unchanged while `updateComicCover` and `updateComicTitle`
reject with their `Comic not found` errors and leave the store unchanged;
and in all three operations an error outcome implies an unchanged store. -/
theorem update_ops_missing_comic_behaviour (cid : String) (k : Nat) (b : Blob)
    (t : String) (s : DBState) :
    (s.comics.find? (fun c => c.id == cid) = none →
       updateComicProgress cid k s = (s, Except.ok ()) ∧
       updateComicCover cid b s = (s, Except.error "Comic not found") ∧
       updateComicTitle cid t s = (s, Except.error "Comic not found for title update")) ∧
    (∀ e, (updateComicProgress cid k s).2 = Except.error e →
       (updateComicProgress cid k s).1 = s) ∧
    (∀ e, (updateComicCover cid b s).2 = Except.error e →
       (updateComicCover cid b s).1 = s) ∧
    (∀ e, (updateComicTitle cid t s).2 = Except.error e →
       (updateComicTitle cid t s).1 = s) := by
  cases hf : s.comics.find? (fun c => c.id == cid) with
  | none =>
      refine ⟨fun _ => ?_, ?_, ?_, ?_⟩
      · simp [updateComicProgress, updateComicCover, updateComicTitle, hf]
      · intro e _; simp [updateComicProgress, hf]
      · intro e _; simp [updateComicCover, hf]
      · intro e _; simp [updateComicTitle, hf]
  | some c =>
      refine ⟨fun hnone => ?_, ?_, ?_, ?_⟩
      · simp at hnone
      · intro e he
        simp [updateComicProgress, hf] at he
      · intro e he
        simp [updateComicCover, hf] at he
      · intro e he
        simp [updateComicTitle, hf] at he

/-- C7 witness: on the empty database the three update operations behave as
stated for the missing comic `c1`. -/
theorem update_ops_missing_comic_behaviour_witness :
    updateComicProgress "c1" 0 dbEmpty = (dbEmpty, Except.ok ()) ∧
    updateComicCover "c1" "b" dbEmpty = (dbEmpty, Except.error "Comic not found") ∧
    updateComicTitle "c1" "t" dbEmpty =
      (dbEmpty, Except.error "Comic not found for title update") :=
  (update_ops_missing_comic_behaviour "c1" 0 "b" "t" dbEmpty).1 (by decide)

/-- C5: `searchComicCovers` pre-filters by case-insensitive title substring
match: title matches are all in the result and are never sent to the model,
the model is consulted only for comics whose title does not match, and the
result is the title matches followed by the comics the model answered
`YES` for. -/
theorem searchComicCovers_prefilter (oracle : Comic → Option String)
    (comics : List Comic) (query : String) :
    searchComicCovers oracle comics query =
      titleMatchesOf comics query ++ (comicsToSearchAi comics query).filter (aiYes oracle) ∧
    (∀ c ∈ comics, titleMatchPred query c = true →
       c ∈ titleMatchesOf comics query ∧ c ∉ aiConsulted comics query ∧
       c ∈ searchComicCovers oracle comics query) ∧
    (∀ c ∈ aiConsulted comics query, titleMatchPred query c = false) ∧
    (∀ c ∈ (comicsToSearchAi comics query).filter (aiYes oracle),
       aiYes oracle c = true ∧ c ∈ comicsToSearchAi comics query) := by
  refine ⟨rfl, ?_, ?_, ?_⟩
  · intro c hc hm
    have htm : c ∈ titleMatchesOf comics query := List.mem_filter.mpr ⟨hc, hm⟩
    have hid : c.id ∈ (titleMatchesOf comics query).map (fun x => x.id) :=
      List.mem_map_of_mem _ htm
    refine ⟨htm, ?_, List.mem_append.mpr (Or.inl htm)⟩
    intro hmem
    have h1 : c ∈ comicsToSearchAi comics query := (List.mem_filter.mp hmem).1
    have h2 := (List.mem_filter.mp h1).2
    simp only [Bool.not_eq_eq_eq_not, Bool.not_true] at h2
    have h3 : ((titleMatchesOf comics query).map (fun x => x.id)).contains c.id = true := by
      rw [List.contains_eq_any_beq]
      exact List.any_eq_true.mpr ⟨c.id, hid, by simp⟩
    rw [h3] at h2
    cases h2
  · intro c hcons
    have h1 : c ∈ comicsToSearchAi comics query := (List.mem_filter.mp hcons).1
    have hmem : c ∈ comics := (List.mem_filter.mp h1).1
    have h2 := (List.mem_filter.mp h1).2
    simp only [Bool.not_eq_eq_eq_not, Bool.not_true] at h2
    by_contra hnm
    have hm : titleMatchPred query c = true := by
      cases h : titleMatchPred query c with
      | true => rfl
      | false => exact absurd h hnm
    have htm : c ∈ titleMatchesOf comics query := List.mem_filter.mpr ⟨hmem, hm⟩
    have hid : c.id ∈ (titleMatchesOf comics query).map (fun x => x.id) :=
      List.mem_map_of_mem _ htm
    have h3 : ((titleMatchesOf comics query).map (fun x => x.id)).contains c.id = true := by
      rw [List.contains_eq_any_beq]
      exact List.any_eq_true.mpr ⟨c.id, hid, by simp⟩
    rw [h3] at h2
    cases h2
  · intro c hc
    have h := List.mem_filter.mp hc
    exact ⟨h.2, h.1⟩

/-- C5 witness: in the two-comic library, `Alpha` matches the query `alp` by
title, is never sent to the model, and appears in the search result. -/
theorem searchComicCovers_prefilter_witness :
    titleMatchPred "alp" comicAlpha = true ∧
    comicAlpha ∈ titleMatchesOf [comicAlpha, comicBeta] "alp" ∧
    comicAlpha ∉ aiConsulted [comicAlpha, comicBeta] "alp" ∧
    comicAlpha ∈ searchComicCovers oracleYesBeta [comicAlpha, comicBeta] "alp" := by
  refine ⟨by decide, ?_⟩
  have h := (searchComicCovers_prefilter oracleYesBeta [comicAlpha, comicBeta] "alp").2.1
    comicAlpha (by decide) (by decide)
  exact ⟨h.1, h.2.1, h.2.2⟩

/-! ### Re-sequencing machinery for `deleteComicPage` -/

theorem applyOrderFrom_id (i : Nat) (rem : List PageRec) (q : PageRec) :
    (applyOrderFrom i rem q).id = q.id := by
  unfold applyOrderFrom
  cases h : orderAt i rem q.id <;> simp

theorem applyOrderFrom_comicId (i : Nat) (rem : List PageRec) (q : PageRec) :
    (applyOrderFrom i rem q).comicId = q.comicId := by
  unfold applyOrderFrom
  cases h : orderAt i rem q.id <;> simp

theorem orderAt_eq_none_of_not_mem (rem : List PageRec) :
    ∀ (i : Nat) (pid : String), pid ∉ rem.map (fun p => p.id) → orderAt i rem pid = none := by
  induction rem with
  | nil => intro i pid _; rfl
  | cons p ps ih =>
      intro i pid h
      simp only [List.map_cons, List.mem_cons, not_or] at h
      unfold orderAt
      rw [if_neg (fun hh => h.1 hh.symm)]
      exact ih (i + 1) pid h.2

theorem orderAt_cons_self (i : Nat) (p : PageRec) (ps : List PageRec) :
    orderAt i (p :: ps) p.id = some i := by
  unfold orderAt
  rw [if_pos rfl]

theorem orderAt_cons_ne (i : Nat) (p : PageRec) (ps : List PageRec) (pid : String)
    (h : p.id ≠ pid) : orderAt i (p :: ps) pid = orderAt (i + 1) ps pid := by
  conv_lhs => unfold orderAt
  rw [if_neg h]

theorem eq_of_mem_id (l : List PageRec) (hnd : (l.map (fun p => p.id)).Nodup)
    {p q : PageRec} (hp : p ∈ l) (hq : q ∈ l) (h : p.id = q.id) : p = q :=
  List.inj_on_of_nodup_map hnd hp hq h

theorem resequence_eq_map (rem : List PageRec) : ∀ (i : Nat) (store : List PageRec),
    (store.map (fun p => p.id)).Nodup → (rem.map (fun p => p.id)).Nodup →
    (∀ p ∈ rem, p ∈ store) →
    resequence i rem store = store.map (applyOrderFrom i rem) := by
  induction rem with
  | nil =>
      intro i store _ _ _
      unfold resequence
      calc store = store.map (fun a => a) := (List.map_id' store).symm
        _ = store.map (applyOrderFrom i []) := List.map_congr_left (fun a _ => rfl)
  | cons p ps ih =>
      intro i store hstore hrem hsub
      rw [List.map_cons] at hrem
      obtain ⟨hpnotin, hrem'⟩ := List.nodup_cons.mp hrem
      have hpmem : p ∈ store := hsub p (List.mem_cons_self p ps)
      by_cases hpo : p.order = i
      · have hstep : resequence i (p :: ps) store = resequence (i + 1) ps store := by
          conv_lhs => unfold resequence
          rw [if_neg (by simp [hpo])]
        rw [hstep, ih (i + 1) store hstore hrem'
          (fun r hr => hsub r (List.mem_cons_of_mem p hr))]
        apply List.map_congr_left
        intro q hq
        by_cases hiq : p.id = q.id
        · have hq' : q = p := (eq_of_mem_id store hstore hpmem hq hiq).symm
          subst hq'
          have h1 : orderAt (i + 1) ps q.id = none :=
            orderAt_eq_none_of_not_mem ps (i + 1) q.id hpnotin
          unfold applyOrderFrom
          rw [h1, orderAt_cons_self, ← hpo]
        · unfold applyOrderFrom
          rw [orderAt_cons_ne i p ps q.id hiq]
      · have hany : store.any (fun x => x.id == p.id) = true :=
          List.any_eq_true.mpr ⟨p, hpmem, by simp⟩
        have hstep : resequence i (p :: ps) store =
            resequence (i + 1) ps (putPage { p with order := i } store) := by
          conv_lhs => unfold resequence
          rw [if_pos hpo]
        have hput : putPage { p with order := i } store =
            store.map (fun x => if x.id == p.id then { p with order := i } else x) := by
          unfold putPage
          rw [if_pos hany]
        have hidpres : ((store.map
            (fun x => if x.id == p.id then { p with order := i } else x)).map
              (fun x => x.id)) = store.map (fun x => x.id) := by
          rw [List.map_map]
          apply List.map_congr_left
          intro x _
          by_cases hb : x.id = p.id
          · simp [Function.comp, hb]
          · simp [Function.comp, hb]
        have hstore' : (((store.map
            (fun x => if x.id == p.id then { p with order := i } else x)).map
              (fun x => x.id))).Nodup := by
          rw [hidpres]; exact hstore
        have hsub' : ∀ r ∈ ps, r ∈ store.map
            (fun x => if x.id == p.id then { p with order := i } else x) := by
          intro r hr
          have hrid : r.id ≠ p.id := by
            intro hh
            exact hpnotin (hh ▸ List.mem_map_of_mem (fun x => x.id) hr)
          have hrstore : r ∈ store := hsub r (List.mem_cons_of_mem p hr)
          have hfix : (if r.id == p.id then ({ p with order := i } : PageRec) else r) = r := by
            rw [if_neg (by simpa using hrid)]
          rw [← hfix]
          exact List.mem_map_of_mem _ hrstore
        rw [hstep, hput, ih (i + 1) _ hstore' hrem' hsub', List.map_map]
        apply List.map_congr_left
        intro q hq
        by_cases hiq : p.id = q.id
        · have hq' : q = p := (eq_of_mem_id store hstore hpmem hq hiq).symm
          subst hq'
          show applyOrderFrom (i + 1) ps
            (if q.id == q.id then { q with order := i } else q) = applyOrderFrom i (q :: ps) q
          rw [if_pos (by simp)]
          have h1 : orderAt (i + 1) ps q.id = none :=
            orderAt_eq_none_of_not_mem ps (i + 1) q.id hpnotin
          unfold applyOrderFrom
          rw [orderAt_cons_self]
          have h1' : orderAt (i + 1) ps (({ q with order := i } : PageRec)).id = none := h1
          rw [h1']
        · show applyOrderFrom (i + 1) ps
            (if q.id == p.id then { p with order := i } else q) = applyOrderFrom i (p :: ps) q
          rw [if_neg (by simpa using fun hh => hiq hh.symm)]
          unfold applyOrderFrom
          rw [orderAt_cons_ne i p ps q.id hiq]

theorem map_getD_orderAt (l : List PageRec) : ∀ i : Nat, (l.map (fun p => p.id)).Nodup →
    l.map (fun p => (orderAt i l p.id).getD p.order) = List.range' i l.length := by
  induction l with
  | nil => intro i _; rfl
  | cons p ps ih =>
      intro i hnd
      rw [List.map_cons] at hnd
      obtain ⟨hpnotin, hnd'⟩ := List.nodup_cons.mp hnd
      simp only [List.map_cons, List.length_cons, List.range'_succ]
      congr 1
      · rw [orderAt_cons_self]
        rfl
      · have hcongr : ps.map (fun q => (orderAt i (p :: ps) q.id).getD q.order)
             = ps.map (fun q => (orderAt (i + 1) ps q.id).getD q.order) := by
          apply List.map_congr_left
          intro q hq
          have hne : p.id ≠ q.id := fun hh =>
            hpnotin (hh ▸ List.mem_map_of_mem (fun x => x.id) hq)
          rw [orderAt_cons_ne i p ps q.id hne]
        rw [hcongr, ih (i + 1) hnd']

theorem orderAt_index (l : List PageRec) : ∀ (i : Nat) (p : PageRec), p ∈ l →
    (l.map (fun x => x.id)).Nodup →
    ∃ k, ∃ hk : k < l.length, l.get ⟨k, hk⟩ = p ∧ orderAt i l p.id = some (i + k) := by
  induction l with
  | nil => intro i p hp _; cases hp
  | cons a t ih =>
      intro i p hp hnd
      rw [List.map_cons] at hnd
      obtain ⟨hanotin, hnd'⟩ := List.nodup_cons.mp hnd
      by_cases h : a.id = p.id
      · have hpa : p = a := by
          cases List.mem_cons.mp hp with
          | inl h1 => exact h1
          | inr h1 =>
              exact absurd (h.symm ▸ List.mem_map_of_mem (fun x => x.id) h1) hanotin
        refine ⟨0, by simp, ?_, ?_⟩
        · simpa using hpa.symm
        · rw [← h, orderAt_cons_self, Nat.add_zero]
      · have hpt : p ∈ t := by
          cases List.mem_cons.mp hp with
          | inl h1 => exact absurd (by rw [h1]) h
          | inr h1 => exact h1
        obtain ⟨k, hk, hget, hord⟩ := ih (i + 1) p hpt hnd'
        refine ⟨k + 1, Nat.succ_lt_succ hk, ?_, ?_⟩
        · simpa using hget
        · rw [orderAt_cons_ne i a t p.id h, hord]
          congr 1
          omega

theorem find?_page_of_nodup (l : List PageRec) (a : PageRec)
    (hnd : (l.map (fun p => p.id)).Nodup) (ha : a ∈ l) :
    l.find? (fun p => p.id == a.id) = some a := by
  induction l with
  | nil => cases ha
  | cons b t ih =>
      rw [List.map_cons] at hnd
      obtain ⟨hbnotin, hnd'⟩ := List.nodup_cons.mp hnd
      by_cases h : b.id = a.id
      · have hab : a = b := by
          cases List.mem_cons.mp ha with
          | inl h1 => exact h1
          | inr h1 =>
              exact absurd (h ▸ List.mem_map_of_mem (fun x => x.id) h1) hbnotin
        rw [List.find?_cons_of_pos _ (by simp [h]), hab]
      · have hat : a ∈ t := by
          cases List.mem_cons.mp ha with
          | inl h1 => exact absurd (by rw [h1]) h
          | inr h1 => exact h1
        rw [List.find?_cons_of_neg _ (by simp [h])]
        exact ih hnd' hat

theorem find?_putComic (store : List Comic) (i : String) (c c' : Comic)
    (h : store.find? (fun x => x.id == i) = some c) (hid : c'.id = c.id) :
    (putComic c' store).find? (fun x => x.id == i) = some c' := by
  have hcid : c.id = i := by simpa using List.find?_some h
  have hmem : c ∈ store := List.mem_of_find?_eq_some h
  have hany : store.any (fun x => x.id == c'.id) = true :=
    List.any_eq_true.mpr ⟨c, hmem, by simp [hid]⟩
  unfold putComic
  rw [if_pos hany, List.find?_map]
  have hpf : ((fun x : Comic => x.id == i) ∘ fun x => if x.id == c'.id then c' else x)
           = fun x : Comic => x.id == i := by
    funext x
    by_cases hx : x.id = c'.id
    · simp [Function.comp, hx, hid, hcid]
    · simp [Function.comp, hx]
  rw [hpf, h]
  simp [hid, hcid]

theorem clampComic_id (n : Nat) (c : Comic) : (clampComic n c).id = c.id := by
  unfold clampComic
  cases h : c.lastReadPage with
  | none => simp [h]
  | some k =>
      simp only [h]
      split <;> rfl

theorem clampComic_totalPages (n : Nat) (c : Comic) : (clampComic n c).totalPages = n := by
  unfold clampComic
  cases h : c.lastReadPage with
  | none => simp [h]
  | some k =>
      simp only [h]
      split <;> rfl

theorem clampComic_lastReadPage_lt (n : Nat) (c : Comic) (hn : 0 < n) :
    ∀ k, (clampComic n c).lastReadPage = some k → k < n := by
  intro k hk
  unfold clampComic at hk
  cases h : c.lastReadPage with
  | none => simp [h] at hk
  | some k0 =>
      simp only [h] at hk
      split at hk
      · simp only [Option.some.injEq] at hk
        omega
      · simp only [Option.some.injEq] at hk
        subst hk
        rename_i hlt
        simp only [not_le] at hlt
        exact hlt

theorem deleteComicPage_pages_eq (pid cid : String) (s : DBState)
    (hne : remainingPages pid cid s ≠ []) :
    (deleteComicPage pid cid s).pages =
      resequence 0
        ((remainingPages pid cid s).mergeSort (fun a b => decide (a.order ≤ b.order)))
        (pagesAfterDelete pid s) := by
  have hempty : (remainingPages pid cid s).isEmpty = false := by
    cases hrr : (remainingPages pid cid s).isEmpty
    · rfl
    · exact absurd (List.isEmpty_iff.mp hrr) hne
  simp only [deleteComicPage, hempty, Bool.false_eq_true, if_false]

theorem deleteComicPage_comics_eq (pid cid : String) (s : DBState) (c : Comic)
    (hne : remainingPages pid cid s ≠ [])
    (hc : s.comics.find? (fun x => x.id == cid) = some c) :
    (deleteComicPage pid cid s).comics =
      putComic (clampComic (remainingPages pid cid s).length c) s.comics := by
  have hempty : (remainingPages pid cid s).isEmpty = false := by
    cases hrr : (remainingPages pid cid s).isEmpty
    · rfl
    · exact absurd (List.isEmpty_iff.mp hrr) hne
  simp only [deleteComicPage, hempty, Bool.false_eq_true, if_false, hc]

/-! ### Claims C3 and C1 -/

/-- C3: a comic surviving `deleteComicPage` ends with `totalPages` equal to
the number of remaining pages and with any present `lastReadPage` cursor
clamped below the new page count. -/
theorem deleteComicPage_updates_survivor (pid cid : String) (s : DBState) (c : Comic)
    (hne : remainingPages pid cid s ≠ [])
    (hc : s.comics.find? (fun x => x.id == cid) = some c) :
    ∃ c', (deleteComicPage pid cid s).comics.find? (fun x => x.id == cid) = some c' ∧
      c'.totalPages = (remainingPages pid cid s).length ∧
      ∀ k, c'.lastReadPage = some k → k < c'.totalPages := by
  have hn : 0 < (remainingPages pid cid s).length := List.length_pos.mpr hne
  refine ⟨clampComic (remainingPages pid cid s).length c, ?_, clampComic_totalPages _ _, ?_⟩
  · rw [deleteComicPage_comics_eq pid cid s c hne hc]
    exact find?_putComic s.comics cid c _ hc (clampComic_id _ _)
  · intro k hk
    rw [clampComic_totalPages]
    exact clampComic_lastReadPage_lt _ c hn k hk

/-- C3 witness: deleting the first page of the three-page comic leaves two
pages; the surviving comic has `totalPages = 2` and its cursor `2` is
clamped to a valid index. -/
theorem deleteComicPage_updates_survivor_witness :
    (remainingPages "p1" "c1" dbThree ≠ [] ∧
     dbThree.comics.find? (fun x => x.id == "c1") = some ⟨"c1", "T", none, 5, 3, some 2⟩) ∧
    ∃ c', (deleteComicPage "p1" "c1" dbThree).comics.find? (fun x => x.id == "c1") = some c' ∧
      c'.totalPages = (remainingPages "p1" "c1" dbThree).length ∧
      ∀ k, c'.lastReadPage = some k → k < c'.totalPages :=
  ⟨⟨by decide, by decide⟩,
   deleteComicPage_updates_survivor "p1" "c1" dbThree ⟨"c1", "T", none, 5, 3, some 2⟩
     (by decide) (by decide)⟩

/-- C1: when pages remain after `deleteComicPage`, their `order` fields are
re-sequenced to the dense range `0..n-1`, indices assigned along the previous
`order` values, so the relative order of the remaining pages is preserved. -/
theorem deleteComicPage_resequences (pid cid : String) (s : DBState)
    (hnd : (s.pages.map (fun p => p.id)).Nodup)
    (hne : remainingPages pid cid s ≠ []) :
    ((((deleteComicPage pid cid s).pages.filter (fun p => p.comicId == cid)).map
        (fun p => p.order)).Perm
      (List.range (remainingPages pid cid s).length)) ∧
    (∀ p ∈ remainingPages pid cid s, ∀ q ∈ remainingPages pid cid s, p.order < q.order →
      ∃ i j, pageOrderInDB (deleteComicPage pid cid s) p.id = some i ∧
        pageOrderInDB (deleteComicPage pid cid s) q.id = some j ∧ i < j) := by
  have hps1nd : ((pagesAfterDelete pid s).map (fun p => p.id)).Nodup :=
    List.Nodup.sublist (List.Sublist.map _ (List.filter_sublist s.pages)) hnd
  have hremnd : ((remainingPages pid cid s).map (fun p => p.id)).Nodup :=
    List.Nodup.sublist (List.Sublist.map _ (List.filter_sublist (pagesAfterDelete pid s)))
      hps1nd
  have hsortperm : ((remainingPages pid cid s).mergeSort
      (fun a b => decide (a.order ≤ b.order))).Perm (remainingPages pid cid s) :=
    List.mergeSort_perm _ _
  have hsortnd : (((remainingPages pid cid s).mergeSort
      (fun a b => decide (a.order ≤ b.order))).map (fun p => p.id)).Nodup :=
    (hsortperm.map (fun p => p.id)).nodup_iff.mpr hremnd
  have hsub : ∀ p ∈ (remainingPages pid cid s).mergeSort
      (fun a b => decide (a.order ≤ b.order)), p ∈ pagesAfterDelete pid s := by
    intro p hp
    have hrp : p ∈ remainingPages pid cid s := hsortperm.mem_iff.mp hp
    exact (List.mem_filter.mp hrp).1
  have hpages2 : (deleteComicPage pid cid s).pages =
      (pagesAfterDelete pid s).map (applyOrderFrom 0
        ((remainingPages pid cid s).mergeSort (fun a b => decide (a.order ≤ b.order)))) := by
    rw [deleteComicPage_pages_eq pid cid s hne]
    exact resequence_eq_map _ 0 _ hps1nd hsortnd hsub
  have hfilter : ((deleteComicPage pid cid s).pages.filter (fun p => p.comicId == cid)) =
      (remainingPages pid cid s).map (applyOrderFrom 0
        ((remainingPages pid cid s).mergeSort (fun a b => decide (a.order ≤ b.order)))) := by
    rw [hpages2, List.filter_map]
    congr 1
    have hpt : ∀ x ∈ pagesAfterDelete pid s,
        ((fun p : PageRec => p.comicId == cid) ∘ applyOrderFrom 0
          ((remainingPages pid cid s).mergeSort (fun a b => decide (a.order ≤ b.order)))) x
        = (fun p : PageRec => p.comicId == cid) x := by
      intro x _
      simp [Function.comp, applyOrderFrom_comicId]
    rw [List.filter_congr hpt]
    rfl
  constructor
  · rw [hfilter]
    have hpointwise : ∀ q ∈ (remainingPages pid cid s).mergeSort
        (fun a b => decide (a.order ≤ b.order)),
        ((fun p : PageRec => p.order) ∘ applyOrderFrom 0
          ((remainingPages pid cid s).mergeSort (fun a b => decide (a.order ≤ b.order)))) q
        = (orderAt 0 ((remainingPages pid cid s).mergeSort
            (fun a b => decide (a.order ≤ b.order))) q.id).getD q.order := by
      intro q _
      simp only [Function.comp]
      unfold applyOrderFrom
      cases hh : orderAt 0 ((remainingPages pid cid s).mergeSort
        (fun a b => decide (a.order ≤ b.order))) q.id
      · rfl
      · rfl
    have hsortedorders : (((remainingPages pid cid s).mergeSort
        (fun a b => decide (a.order ≤ b.order))).map (applyOrderFrom 0
          ((remainingPages pid cid s).mergeSort
            (fun a b => decide (a.order ≤ b.order))))).map (fun p => p.order)
        = List.range' 0 ((remainingPages pid cid s).mergeSort
            (fun a b => decide (a.order ≤ b.order))).length := by
      rw [List.map_map, List.map_congr_left hpointwise, map_getD_orderAt _ 0 hsortnd]
    have hperm2 : (((remainingPages pid cid s).map (applyOrderFrom 0
        ((remainingPages pid cid s).mergeSort
          (fun a b => decide (a.order ≤ b.order))))).map (fun p => p.order)).Perm
        ((((remainingPages pid cid s).mergeSort
          (fun a b => decide (a.order ≤ b.order))).map (applyOrderFrom 0
            ((remainingPages pid cid s).mergeSort
              (fun a b => decide (a.order ≤ b.order))))).map (fun p => p.order)) :=
      (hsortperm.symm.map _).map _
    rw [List.range_eq_range', ← hsortperm.length_eq]
    exact hsortedorders ▸ hperm2
  · intro p hp q hq hlt
    have hpS : p ∈ (remainingPages pid cid s).mergeSort
        (fun a b => decide (a.order ≤ b.order)) := hsortperm.mem_iff.mpr hp
    have hqS : q ∈ (remainingPages pid cid s).mergeSort
        (fun a b => decide (a.order ≤ b.order)) := hsortperm.mem_iff.mpr hq
    obtain ⟨kp, hkp, hgetp, hordp⟩ := orderAt_index _ 0 p hpS hsortnd
    obtain ⟨kq, hkq, hgetq, hordq⟩ := orderAt_index _ 0 q hqS hsortnd
    have hpp1 : p ∈ pagesAfterDelete pid s := (List.mem_filter.mp hp).1
    have hqp1 : q ∈ pagesAfterDelete pid s := (List.mem_filter.mp hq).1
    have hmapnd : (((pagesAfterDelete pid s).map (applyOrderFrom 0
        ((remainingPages pid cid s).mergeSort
          (fun a b => decide (a.order ≤ b.order))))).map (fun x => x.id)).Nodup := by
      rw [List.map_map]
      have heq : (pagesAfterDelete pid s).map ((fun x : PageRec => x.id) ∘ applyOrderFrom 0
            ((remainingPages pid cid s).mergeSort (fun a b => decide (a.order ≤ b.order))))
          = (pagesAfterDelete pid s).map (fun x => x.id) :=
        List.map_congr_left (fun x _ => applyOrderFrom_id 0 _ x)
      rw [heq]
      exact hps1nd
    have hfind : ∀ r ∈ pagesAfterDelete pid s,
        ((pagesAfterDelete pid s).map (applyOrderFrom 0
          ((remainingPages pid cid s).mergeSort
            (fun a b => decide (a.order ≤ b.order))))).find? (fun x => x.id == r.id)
          = some (applyOrderFrom 0 ((remainingPages pid cid s).mergeSort
              (fun a b => decide (a.order ≤ b.order))) r) := by
      intro r hr
      have hmem := List.mem_map_of_mem (applyOrderFrom 0
        ((remainingPages pid cid s).mergeSort (fun a b => decide (a.order ≤ b.order)))) hr
      have hres := find?_page_of_nodup _ _ hmapnd hmem
      rwa [applyOrderFrom_id] at hres
    have hgp : (applyOrderFrom 0 ((remainingPages pid cid s).mergeSort
        (fun a b => decide (a.order ≤ b.order))) p).order = kp := by
      unfold applyOrderFrom
      rw [hordp]
      simp
    have hgq : (applyOrderFrom 0 ((remainingPages pid cid s).mergeSort
        (fun a b => decide (a.order ≤ b.order))) q).order = kq := by
      unfold applyOrderFrom
      rw [hordq]
      simp
    refine ⟨kp, kq, ?_, ?_, ?_⟩
    · unfold pageOrderInDB
      rw [hpages2, hfind p hpp1]
      simp [hgp]
    · unfold pageOrderInDB
      rw [hpages2, hfind q hqp1]
      simp [hgq]
    · have hsorted_pw := @List.sorted_mergeSort PageRec
        (fun a b => decide (a.order ≤ b.order)) pageLe_trans pageLe_total
        (remainingPages pid cid s)
      rcases Nat.lt_trichotomy kp kq with h | h | h
      · exact h
      · exfalso
        have hfin : (⟨kp, hkp⟩ : Fin ((remainingPages pid cid s).mergeSort
            (fun a b => decide (a.order ≤ b.order))).length) = ⟨kq, hkq⟩ := by
          simp only [Fin.mk.injEq]
          exact h
        have hpq : p = q := by rw [← hgetp, ← hgetq, hfin]
        rw [hpq] at hlt
        exact Nat.lt_irrefl _ hlt
      · exfalso
        have hpw := (List.pairwise_iff_get.mp hsorted_pw) ⟨kq, hkq⟩ ⟨kp, hkp⟩
          (Fin.mk_lt_mk.mpr h)
        rw [hgetp, hgetq] at hpw
        simp only [decide_eq_true_eq] at hpw
        omega

/-- C1 witness: deleting page `p1` of the three-page comic re-sequences the
surviving pages `p2, p3` to orders `0, 1`, preserving their relative order. -/
theorem deleteComicPage_resequences_witness :
    ((dbThree.pages.map (fun p => p.id)).Nodup ∧ remainingPages "p1" "c1" dbThree ≠ []) ∧
    (((((deleteComicPage "p1" "c1" dbThree).pages.filter
          (fun p => p.comicId == "c1")).map (fun p => p.order)).Perm
        (List.range (remainingPages "p1" "c1" dbThree).length)) ∧
      (∀ p ∈ remainingPages "p1" "c1" dbThree, ∀ q ∈ remainingPages "p1" "c1" dbThree,
        p.order < q.order →
        ∃ i j, pageOrderInDB (deleteComicPage "p1" "c1" dbThree) p.id = some i ∧
          pageOrderInDB (deleteComicPage "p1" "c1" dbThree) q.id = some j ∧ i < j)) :=
  ⟨⟨by decide, by decide⟩,
   deleteComicPage_resequences "p1" "c1" dbThree (by decide) (by decide)⟩
